import Mathlib

/-!
A verification development for the RAG-APPLICATION retrieval engine.

The Python sources `src/document_analyzer.py`, `src/enhanced_vectorstore.py`
and `src/enhanced_search.py` are shallowly embedded below.  External
capabilities are modelled at their boundary:

* the sentence-embedding model is an opaque function `String → List Int`
  (one fixed-length numeric vector per input text, per the embedding
  boundary contract);
* a FAISS `IndexFlatL2` is modelled as the list of the vectors stored in
  it, and a nearest-neighbour query `index.search(q, k)` is modelled by a
  caller-supplied *ranking*: the list of stored-vector positions in
  ascending order of distance to the query, of which the search returns
  the first `k`.  Theorems that depend on the search quantify over every
  possible ranking (typically: every permutation of the stored positions),
  so they hold whatever the opaque embedding geometry does;
* Python strings are modelled by `String`; helpers that Lean's kernel
  cannot reduce (`str.split`, `str.lower`) are re-implemented over the
  character list, with the exact Python semantics noted at each one.
-/

namespace RAGApp

/-! ## Python string primitives -/

/-- Python `len(s)` (number of characters). -/
def str_len (s : String) : Nat := s.data.length

/-- Python slice `s[:n]` (first `n` characters). -/
def str_take (s : String) (n : Nat) : String := String.mk (s.data.take n)

/-- Python `s.lower()` (per-character lower-casing; ASCII suffices here). -/
def str_lower (s : String) : String := String.mk (s.data.map Char.toLower)

/-- Helper for `py_split_char`: accumulates the current field in reverse. -/
def split_char_aux (sep : Char) : List Char → List Char → List (List Char)
  | [], cur => [cur.reverse]
  | c :: cs, cur =>
    if c == sep then cur.reverse :: split_char_aux sep cs []
    else split_char_aux sep cs (c :: cur)

/-- Python `s.split(sep)` for a one-character separator: `"".split(c) = [""]`,
`"a\nb".split("\n") = ["a", "b"]`, a trailing separator yields a final `""`. -/
def py_split_char (sep : Char) (s : String) : List String :=
  (split_char_aux sep s.data []).map String.mk

/-- Python `sep.join(parts)`. -/
def py_join (sep : String) : List String → String
  | [] => ""
  | [x] => x
  | x :: xs => x ++ sep ++ py_join sep xs

/-- Python `os.path.basename(p)` for POSIX paths: the part after the last `/`
(the whole string when there is no `/`). -/
def os_path_basename (p : String) : String := (py_split_char '/' p).getLastD ""

/-- Truthiness of Python `s.strip()`: non-empty exactly when `s` has a
non-whitespace character. -/
def has_non_whitespace (s : String) : Bool := s.data.any (fun c => !c.isWhitespace)

/-! ## document_analyzer.py — `_extract_key_topics`

The regex `\b[A-Za-z]{4,}\b` applied to `text.lower()` matches exactly the
maximal runs of word characters (`[A-Za-z0-9_]` for the ASCII inputs treated
here) that consist solely of letters and have length at least 4; `re.findall`
enumerates those runs from left to right. -/

/-- A regex word character (ASCII `\w`). -/
def word_char (c : Char) : Bool := c.isAlpha || c.isDigit || c == '_'

/-- Splits a character list into its maximal runs of word characters,
left to right (`cur` holds the run in progress, reversed). -/
def word_runs_aux : List Char → List Char → List (List Char)
  | [], cur => if cur.isEmpty then [] else [cur.reverse]
  | c :: cs, cur =>
    if word_char c then word_runs_aux cs (c :: cur)
    else if cur.isEmpty then word_runs_aux cs []
    else cur.reverse :: word_runs_aux cs []

def word_runs (cs : List Char) : List (List Char) := word_runs_aux cs []

/-- `re.findall(r'\b[A-Za-z]{4,}\b', text)`: the maximal word-character runs
that are purely alphabetic and at least 4 characters long. -/
def findall_words (text : String) : List String :=
  ((word_runs text.data).filter
    (fun r => r.all Char.isAlpha && decide (4 ≤ r.length))).map String.mk

/-- The `stop_words` set of `DocumentAnalyzer._extract_key_topics`. -/
def stop_words : List String :=
  ["this", "that", "with", "have", "will", "from", "they", "been",
   "were", "said", "each", "which", "their", "time", "would", "there",
   "could", "other", "more", "very", "what", "know", "just", "first",
   "into", "over", "think", "also", "your", "work", "life", "only",
   "can", "should", "after", "being", "now", "made", "before", "here",
   "through", "when", "where", "how", "all", "any", "may", "say"]

/-- One step of the Python `word_freq[word] += 1` on a `defaultdict(int)`:
bump the existing entry, or append a fresh `(word, 1)` entry at the end
(Python dicts preserve insertion order, i.e. first-seen order). -/
def bump_word (acc : List (String × Nat)) (w : String) : List (String × Nat) :=
  if acc.any (fun p => p.1 == w) then
    acc.map (fun p => if p.1 == w then (p.1, p.2 + 1) else p)
  else acc ++ [(w, 1)]

/-- `word_freq.items()` after counting `ws` in order. -/
def count_words (ws : List String) : List (String × Nat) := ws.foldl bump_word []

/-- Stable insertion for descending-count order: a new item goes after every
existing item of greater *or equal* count, which is exactly the tie behaviour
of Python's stable `sorted(..., key=count, reverse=True)`. -/
def insert_by_count_desc (x : String × Nat) : List (String × Nat) → List (String × Nat)
  | [] => [x]
  | y :: ys => if x.2 ≤ y.2 then y :: insert_by_count_desc x ys else x :: y :: ys

/-- Python `sorted(items, key=lambda x: x[1], reverse=True)` (stable). -/
def sort_by_count_desc (l : List (String × Nat)) : List (String × Nat) :=
  l.foldl (fun acc x => insert_by_count_desc x acc) []

/-- `DocumentAnalyzer._extract_key_topics`: regex tokens of the lower-cased
text, kept when not a stop word and `len(word) > 4`, frequency-counted in
first-seen order, stably sorted by descending count, top 20 words. -/
def extract_key_topics (text : String) : List String :=
  let words := findall_words (str_lower text)
  let counted := count_words (words.filter
    (fun w => decide (w ∉ stop_words) && decide (4 < str_len w)))
  ((sort_by_count_desc counted).take 20).map (fun p => p.1)

/-- The claim's reading of topic extraction: lower-cased alphabetic tokens of
length **≥ 4** that are not stop words, frequency-counted, top 20 by
descending frequency with first-seen tie order.  Used only to exhibit where
it departs from the code. -/
def extract_key_topics_claimed (text : String) : List String :=
  let words := findall_words (str_lower text)
  let counted := count_words (words.filter (fun w => decide (w ∉ stop_words)))
  ((sort_by_count_desc counted).take 20).map (fun p => p.1)

/-- The amended specification: lower-cased alphabetic tokens of length **≥ 5**
that are not stop words, frequency-counted, top 20 by descending frequency
with first-seen tie order. -/
def extract_key_topics_spec (text : String) : List String :=
  let words := ((word_runs (str_lower text).data).filter
    (fun r => r.all Char.isAlpha && decide (5 ≤ r.length))).map String.mk
  let counted := count_words (words.filter (fun w => decide (w ∉ stop_words)))
  ((sort_by_count_desc counted).take 20).map (fun p => p.1)

/-! ## document_analyzer.py — `_chunk_csv_content` -/

/-- Fuel-driven grouping of `lines[i:i+10]` for `i in range(start, len, 10)`:
successive blocks of at most 10 rows.  The fuel (`rows.length` at the top
call) only makes the recursion structural; it never runs out, because every
round consumes at least one row. -/
def group_rows_aux : Nat → List String → List (List String)
  | _, [] => []
  | 0, _ => []
  | fuel + 1, rows => rows.take 10 :: group_rows_aux fuel (rows.drop 10)

def group_rows (rows : List String) : List (List String) :=
  group_rows_aux rows.length rows

/-- `DocumentAnalyzer._chunk_csv_content`: split on newlines; a content with
at most one line is returned whole; otherwise the first line is the header,
data rows are grouped in blocks of 10, each block is emitted as
`header + rows` re-joined with newlines, blank blocks (`not chunk.strip()`)
are dropped, and an empty result falls back to the whole content. -/
def chunk_csv_content (content : String) : List String :=
  match py_split_char '\n' content with
  | [] => [content]
  | [_] => [content]
  | header :: rest =>
    let chunks := ((group_rows rest).map
        (fun b => py_join "\n" (header :: b))).filter has_non_whitespace
    if chunks.isEmpty then [content] else chunks

/-! ## Data model: metadata records and the store state -/

/-- One entry of `EnhancedVectorStore.document_metadata` (the opaque
`structure`/`metadata` sub-dictionaries, which no modelled operation reads,
are omitted). -/
structure DocMeta where
  file_path : String
  file_type : String
  document_summary : String
  key_topics : List String
  full_text : String
deriving DecidableEq, Inhabited

/-- One entry of `EnhancedVectorStore.chunk_metadata` (the `context`
sub-dictionary, which no modelled operation reads, is omitted). -/
structure ChunkMeta where
  document_index : Nat
  chunk_text : String
  page_number : Nat
  chunk_index : Nat
  source : String
  file_type : String
deriving DecidableEq, Inhabited

/-- A semantic chunk as produced by `DocumentAnalyzer._create_semantic_chunks`. -/
structure SemanticChunk where
  text : String
  page_number : Nat
  chunk_index : Nat
  source : String
  file_type : String
deriving DecidableEq, Inhabited

/-- The analysis record returned by `DocumentAnalyzer.analyze_document`:
embedding vectors are opaque integer lists; an empty `document_embedding`
models `np.array([])` (the failed-analysis marker). -/
structure Analysis where
  file_path : String
  file_type : String
  document_summary : String
  key_topics : List String
  full_text : String
  semantic_chunks : List SemanticChunk
  document_embedding : List Int
  chunk_embeddings : List (List Int)
deriving DecidableEq, Inhabited

/-- `DocumentAnalyzer._generate_multi_level_embeddings`: one embedding for the
summary and one per chunk text, in chunk order (the embedding provider's
batch call returns one vector per input, in order). -/
def generate_multi_level_embeddings (embed : String → List Int)
    (summary : String) (chunks : List SemanticChunk) :
    List Int × List (List Int) :=
  (embed summary, chunks.map (fun c => embed c.text))

/-- The mutable state of an `EnhancedVectorStore`: the two metadata arrays and
the two FAISS indices (`none` = the index was never built). -/
structure StoreState where
  document_metadata : List DocMeta
  chunk_metadata : List ChunkMeta
  document_index : Option (List (List Int))
  chunk_index : Option (List (List Int))
deriving DecidableEq, Inhabited

/-- The state after `EnhancedVectorStore.__init__`. -/
def initial_store : StoreState :=
  { document_metadata := [], chunk_metadata := [],
    document_index := none, chunk_index := none }

/-! ## enhanced_vectorstore.py — `build_from_documents` -/

def mk_doc_meta (a : Analysis) : DocMeta :=
  { file_path := a.file_path, file_type := a.file_type,
    document_summary := a.document_summary, key_topics := a.key_topics,
    full_text := a.full_text }

def mk_chunk_meta (doc_idx : Nat) (c : SemanticChunk) : ChunkMeta :=
  { document_index := doc_idx, chunk_text := c.text,
    page_number := c.page_number, chunk_index := c.chunk_index,
    source := c.source, file_type := c.file_type }

/-- The loop state of `build_from_documents`: the two metadata arrays (the
`self.` fields being appended to) and the two local embedding accumulators. -/
structure BuildAcc where
  document_metadata : List DocMeta
  chunk_metadata : List ChunkMeta
  all_doc_embeddings : List (List Int)
  all_chunk_embeddings : List (List Int)
deriving DecidableEq, Inhabited

/-- The per-document loop of `build_from_documents`: skip an analysis whose
document embedding is empty; otherwise append the document metadata and
embedding, and if the chunk-embedding array is non-empty, extend the chunk
embeddings and append one `ChunkMeta` per semantic chunk, each referencing
`len(document_metadata) - 1`. -/
def build_loop : BuildAcc → List Analysis → BuildAcc
  | acc, [] => acc
  | acc, a :: rest =>
    if a.document_embedding.isEmpty then build_loop acc rest
    else
      let dm := acc.document_metadata ++ [mk_doc_meta a]
      if a.chunk_embeddings.isEmpty then
        build_loop ⟨dm, acc.chunk_metadata,
          acc.all_doc_embeddings ++ [a.document_embedding],
          acc.all_chunk_embeddings⟩ rest
      else
        build_loop ⟨dm,
          acc.chunk_metadata ++ a.semantic_chunks.map (mk_chunk_meta (dm.length - 1)),
          acc.all_doc_embeddings ++ [a.document_embedding],
          acc.all_chunk_embeddings ++ a.chunk_embeddings⟩ rest

/-- `EnhancedVectorStore.build_from_documents`: run the loop, then build each
FAISS index from its accumulated embeddings when non-empty (an empty
accumulator leaves the previous index object in place). -/
def build_from_documents (init : StoreState) (analyses : List Analysis) : StoreState :=
  let acc := build_loop
    ⟨init.document_metadata, init.chunk_metadata, [], []⟩ analyses
  { document_metadata := acc.document_metadata,
    chunk_metadata := acc.chunk_metadata,
    document_index :=
      if acc.all_doc_embeddings.isEmpty then init.document_index
      else some acc.all_doc_embeddings,
    chunk_index :=
      if acc.all_chunk_embeddings.isEmpty then init.chunk_index
      else some acc.all_chunk_embeddings }

/-! ## enhanced_vectorstore.py — search operations

`self.model.encode([query])` followed by `index.search(query_embedding, k)`
is modelled by a caller-supplied ranking (see the header comment): the
positions of the stored vectors in ascending distance order, of which the
FAISS call returns the first `k`. -/

/-- One entry of the result list of `search_documents` (the `distance` and
`relevance_score` floats, pure monotone decorations of the ranking, are
omitted). -/
structure DocResult where
  rank : Nat
  document : DocMeta
deriving DecidableEq, Inhabited

/-- One entry of the result list of `search_chunks`. -/
structure ChunkResult where
  rank : Nat
  chunk : ChunkMeta
  document_info : DocMeta
deriving DecidableEq, Inhabited

/-- `EnhancedVectorStore.search_documents`: empty when the document index was
never built; otherwise walk the first `top_k` ranked positions, keep those
inside the metadata array (`idx < len(self.document_metadata)`), and number
the kept entries by their loop position (`rank = i + 1`). -/
def search_documents (s : StoreState) (query : String) (ranking : List Nat)
    (top_k : Nat) : List DocResult :=
  let _ := query
  match s.document_index with
  | none => []
  | some _ =>
    (ranking.take top_k).enum.filterMap (fun p =>
      if p.2 < s.document_metadata.length then
        some { rank := p.1 + 1, document := s.document_metadata.getD p.2 default }
      else none)

/-- Python `if document_filter and idx not in document_filter: continue`:
the skip fires only when the filter is present, non-empty (an empty list is
falsy) and does not contain the chunk's document index. -/
def chunk_filter_skip (document_filter : Option (List Nat)) (meta : ChunkMeta) : Bool :=
  match document_filter with
  | none => false
  | some f => !f.isEmpty && decide (meta.document_index ∉ f)

/-- The result-collecting loop of `search_chunks` over the ranked candidate
positions; `count` is `len(results)` so far.  An accepted chunk gets
`rank = len(results) + 1`, and the loop breaks once `len(results) >= top_k`. -/
def search_chunks_loop (s : StoreState) (document_filter : Option (List Nat))
    (top_k : Nat) : List Nat → Nat → List ChunkResult
  | [], _ => []
  | idx :: rest, count =>
    if idx < s.chunk_metadata.length then
      let meta := s.chunk_metadata.getD idx default
      if chunk_filter_skip document_filter meta then
        search_chunks_loop s document_filter top_k rest count
      else
        let r : ChunkResult :=
          { rank := count + 1, chunk := meta,
            document_info := s.document_metadata.getD meta.document_index default }
        if top_k ≤ count + 1 then [r]
        else r :: search_chunks_loop s document_filter top_k rest (count + 1)
    else search_chunks_loop s document_filter top_k rest count

/-- `EnhancedVectorStore.search_chunks`: empty when the chunk index was never
built; otherwise over-fetch `top_k * 2` ranked candidates and collect up to
`top_k` results, applying the optional document filter post-search. -/
def search_chunks (s : StoreState) (query : String) (ranking : List Nat)
    (top_k : Nat) (document_filter : Option (List Nat)) : List ChunkResult :=
  let _ := query
  match s.chunk_index with
  | none => []
  | some _ => search_chunks_loop s document_filter top_k (ranking.take (top_k * 2)) 0

/-! ## enhanced_vectorstore.py — `hybrid_search` -/

/-- The diversity-balancing loop of `hybrid_search`.  `counts` is the
`doc_chunk_count` dictionary (`.get(d, 0)` semantics).  A candidate is
accepted when its document's running count is below `max_per_doc` or fewer
than `chunk_top_k // 2` chunks were accepted so far; the loop breaks once
`len(balanced_chunks) >= chunk_top_k`. -/
def balanced_loop (max_per_doc chunk_top_k : Nat) :
    List ChunkResult → List ChunkResult → (Nat → Nat) → List ChunkResult
  | [], acc, _ => acc
  | c :: rest, acc, counts =>
    let d := c.chunk.document_index
    if counts d < max_per_doc || acc.length < chunk_top_k / 2 then
      let acc2 := acc ++ [c]
      if chunk_top_k ≤ acc2.length then acc2
      else balanced_loop max_per_doc chunk_top_k rest acc2
        (fun x => if x = d then counts d + 1 else counts x)
    else balanced_loop max_per_doc chunk_top_k rest acc counts

/-- The backfill loop of `hybrid_search`: append every remaining candidate
not already taken (`chunk not in balanced_chunks`; the result dictionaries
carry distinct ranks, so Python's value equality is membership here),
breaking once `chunk_top_k` is reached. -/
def backfill_loop (chunk_top_k : Nat) :
    List ChunkResult → List ChunkResult → List ChunkResult
  | [], acc => acc
  | c :: rest, acc =>
    if c ∈ acc then backfill_loop chunk_top_k rest acc
    else
      let acc2 := acc ++ [c]
      if chunk_top_k ≤ acc2.length then acc2
      else backfill_loop chunk_top_k rest acc2

/-- The result dictionary of `hybrid_search`. -/
structure HybridSearchResult where
  query : String
  relevant_documents : List DocResult
  relevant_chunks : List ChunkResult
  search_strategy : String
deriving DecidableEq, Inhabited

/-- `EnhancedVectorStore.hybrid_search`: a document shortlist, an unfiltered
over-fetched chunk search (`chunk_top_k * 2`), the balancing pass with
`max_chunks_per_doc = max(2, chunk_top_k // len(document_metadata))` (or
`chunk_top_k` for an empty collection), and the backfill pass when the
balanced list is still short. -/
def hybrid_search (s : StoreState) (query : String)
    (doc_ranking chunk_ranking : List Nat)
    (doc_top_k : Nat := 3) (chunk_top_k : Nat := 10) : HybridSearchResult :=
  let relevant_docs := search_documents s query doc_ranking doc_top_k
  let all_chunks := search_chunks s query chunk_ranking (chunk_top_k * 2) none
  let max_chunks_per_doc :=
    if s.document_metadata.isEmpty then chunk_top_k
    else max 2 (chunk_top_k / s.document_metadata.length)
  let balanced := balanced_loop max_chunks_per_doc chunk_top_k all_chunks [] (fun _ => 0)
  let final :=
    if balanced.length < chunk_top_k then backfill_loop chunk_top_k all_chunks balanced
    else balanced
  { query := query, relevant_documents := relevant_docs,
    relevant_chunks := final, search_strategy := "balanced_hybrid" }

/-! ## enhanced_vectorstore.py — `get_comprehensive_context` -/

/-- The summary piece built for one relevant document. -/
def context_doc_part (d : DocResult) : String :=
  "\nDocument: " ++ os_path_basename d.document.file_path ++
  "\nSummary: " ++ str_take d.document.document_summary 500 ++
  "\nKey Topics: " ++ py_join ", " (d.document.key_topics.take 5) ++ "\n"

/-- The content piece built for one relevant chunk. -/
def context_chunk_part (c : ChunkResult) : String :=
  "\n[Page " ++ toString c.chunk.page_number ++ "] " ++ c.chunk.chunk_text ++ "\n"

/-- The document-summaries loop of `get_comprehensive_context`: a piece that
does not keep the running length strictly below the budget is *skipped*, and
the loop continues with the next document.  Returns the appended pieces and
the final running length. -/
def docs_context_loop (max_len : Nat) : List DocResult → Nat → List String × Nat
  | [], cur => ([], cur)
  | d :: rest, cur =>
    let piece := context_doc_part d
    if cur + str_len piece < max_len then
      let next := docs_context_loop max_len rest (cur + str_len piece)
      (piece :: next.1, next.2)
    else docs_context_loop max_len rest cur

/-- The relevant-chunks loop of `get_comprehensive_context`: unlike the
summaries loop, it *breaks* at the first piece that does not fit. -/
def chunks_context_loop (max_len : Nat) : List ChunkResult → Nat → List String
  | [], _ => []
  | c :: rest, cur =>
    let piece := context_chunk_part c
    if cur + str_len piece < max_len then
      piece :: chunks_context_loop max_len rest (cur + str_len piece)
    else []

/-- `EnhancedVectorStore.get_comprehensive_context`: hybrid search at the
default widths (3, 10), then the two headers are appended unconditionally
(and never counted towards the budget), summaries are appended by the
skip-on-overflow loop, chunks by the break-on-overflow loop, and everything
is joined with newlines. -/
def get_comprehensive_context (s : StoreState) (query : String)
    (doc_ranking chunk_ranking : List Nat) (max_context_length : Nat := 4000) : String :=
  let results := hybrid_search s query doc_ranking chunk_ranking 3 10
  let docs := docs_context_loop max_context_length results.relevant_documents 0
  let chunk_parts := chunks_context_loop max_context_length results.relevant_chunks docs.2
  py_join "\n" (("=== DOCUMENT SUMMARIES ===" :: docs.1) ++
    ("\n=== RELEVANT CONTENT ===" :: chunk_parts))

/-! ## enhanced_search.py — staleness check, fallback response -/

/-- The rebuild decision of `EnhancedRAGSearch._initialize_vectorstore`:
when the persisted index pair is present the store is loaded and a rebuild is
triggered exactly when the current document locator set differs from the
indexed one (`current_files != indexed_files` on Python sets); when the index
files are absent a rebuild is always triggered. -/
def initialize_needs_rebuild (index_present : Bool)
    (current_files indexed_files : List String) : Bool :=
  if index_present then decide (current_files.toFinset ≠ indexed_files.toFinset)
  else true

/-- The prompt text built by `_generate_intelligent_response`. -/
def intelligent_prompt (query context : String) : String :=
  "You are an expert document analyst. Answer the user\x27s question using the provided comprehensive context from multiple documents.\n\nCONTEXT INFORMATION:\n" ++
  context ++
  "\n\nUSER QUESTION: " ++ query ++
  "\n\nINSTRUCTIONS:\n1. Provide a comprehensive answer based on ALL relevant information from the context\n2. If the question requires analysis across multiple documents, synthesize information from all sources\n3. Include specific details, examples, and explanations when available\n4. If information is incomplete, clearly state what aspects need more information\n5. Cite specific documents or pages when referencing information\n6. Structure your response clearly with main points and supporting details\n\nANSWER:"

/-- `EnhancedRAGSearch._fallback_response`: a deterministic rendering of the
search results — the top 3 documents by (300-char-truncated) summary and the
top 5 chunks by (200-char-truncated) text, each section present only when its
list is non-empty, joined with blank lines. -/
def fallback_response (query : String) (search_results : HybridSearchResult) : String :=
  let doc_parts :=
    if search_results.relevant_documents.isEmpty then []
    else "RELEVANT DOCUMENTS:" ::
      (search_results.relevant_documents.take 3).enum.map (fun p =>
        toString (p.1 + 1) ++ ". " ++ os_path_basename p.2.document.file_path ++
        ": " ++ str_take p.2.document.document_summary 300 ++ "...")
  let chunk_parts :=
    if search_results.relevant_chunks.isEmpty then []
    else "\nRELEVANT CONTENT:" ::
      (search_results.relevant_chunks.take 5).enum.map (fun p =>
        toString (p.1 + 1) ++ ". [Page " ++ toString p.2.chunk.page_number ++ "] " ++
        str_take p.2.chunk.chunk_text 200 ++ "...")
  py_join "\n\n"
    (("Based on the analysis of the documents, here\x27s what I found regarding: \x27" ++
      query ++ "\x27\n") :: (doc_parts ++ chunk_parts))

/-- `EnhancedRAGSearch._generate_intelligent_response`: invoke the external
language model on the built prompt; on success return its content, on any
exception return the deterministic fallback response (no error escapes). -/
def generate_intelligent_response (llm : String → Except String String)
    (query context : String) (search_results : HybridSearchResult) : String :=
  match llm (intelligent_prompt query context) with
  | Except.ok response => response
  | Except.error _ => fallback_response query search_results

/-! ## Specification-side definitions

These restate algorithm descriptions in the words of the specification (for
refinement claims they are compared with the code-side definitions above).
They are deliberately written with a different mechanism — running counts by
re-counting the accepted list, scans as folds — so that agreement with the
code-side loops is a theorem, not a restatement. -/

/-- The diversity pass as the specification words it: walk the ranked
candidates, accept one exactly when its document's running count (counted
directly in the accepted list) is below `max_per_doc` or fewer than
`chunk_top_k / 2` are accepted so far, and stop once `chunk_top_k` chunks are
accepted. -/
def diversity_walk (max_per_doc chunk_top_k : Nat) :
    List ChunkResult → List ChunkResult → List ChunkResult
  | [], acc => acc
  | c :: rest, acc =>
    if acc.countP (fun x => x.chunk.document_index == c.chunk.document_index)
        < max_per_doc || acc.length < chunk_top_k / 2 then
      let acc2 := acc ++ [c]
      if chunk_top_k ≤ acc2.length then acc2
      else diversity_walk max_per_doc chunk_top_k rest acc2
    else diversity_walk max_per_doc chunk_top_k rest acc

/-- The full diversity selection as the specification words it: the balanced
pass, then backfill from the remaining ranked candidates in order, ignoring
the per-document cap, until `chunk_top_k` is reached or candidates are
exhausted. -/
def diversity_spec (candidates : List ChunkResult) (chunk_top_k max_per_doc : Nat) :
    List ChunkResult :=
  let balanced := diversity_walk max_per_doc chunk_top_k candidates []
  balanced ++
    (candidates.filter (fun c => c ∉ balanced)).take (chunk_top_k - balanced.length)

/-- One step of the summaries scan of `assembleContext`: append a piece when
it keeps the total strictly below the budget, skip it otherwise. -/
def spec_doc_step (max_len : Nat) (st : List String × Nat) (d : DocResult) :
    List String × Nat :=
  if st.2 + str_len (context_doc_part d) < max_len then
    (st.1 ++ [context_doc_part d], st.2 + str_len (context_doc_part d))
  else st

/-- The summaries scan of `assembleContext` as a fold. -/
def spec_docs_scan (max_len : Nat) (docs : List DocResult) : List String × Nat :=
  docs.foldl (spec_doc_step max_len) ([], 0)

/-- One step of the chunks scan of `assembleContext`: once stopped, stay
stopped; otherwise append the piece when it fits and stop for good when it
does not. -/
def spec_chunk_step (max_len : Nat) (st : List String × Nat × Bool) (c : ChunkResult) :
    List String × Nat × Bool :=
  if st.2.2 then st
  else if st.2.1 + str_len (context_chunk_part c) < max_len then
    (st.1 ++ [context_chunk_part c], st.2.1 + str_len (context_chunk_part c), false)
  else (st.1, st.2.1, true)

/-- The chunks scan of `assembleContext` as a fold with a stopped flag. -/
def spec_chunks_scan (max_len : Nat) (chunks : List ChunkResult) (start : Nat) :
    List String :=
  (chunks.foldl (spec_chunk_step max_len) ([], start, false)).1

/-- `assembleContext` as the amended specification words it: the summaries
header unconditionally, the skip-scan over summaries, the content header
unconditionally, then the stop-scan over chunks, joined with newlines. -/
def spec_assemble_context (s : StoreState) (query : String)
    (doc_ranking chunk_ranking : List Nat) (max_context_length : Nat) : String :=
  let results := hybrid_search s query doc_ranking chunk_ranking 3 10
  let docs := spec_docs_scan max_context_length results.relevant_documents
  let chunk_parts := spec_chunks_scan max_context_length results.relevant_chunks docs.2
  py_join "\n" (("=== DOCUMENT SUMMARIES ===" :: docs.1) ++
    ("\n=== RELEVANT CONTENT ===" :: chunk_parts))

/-! ## Concrete states for counterexamples and witnesses -/

/-- A 38-character single-paragraph text (two alphabetic words). -/
def c7_text : String := "abcdefghijklmnopqrstuvwxyz abcdefghijk"

/-- A store holding one analysed 38-character text document with one chunk,
as a build from `data/a.txt` produces it (summary = full text, topics as
`_extract_key_topics` returns them, one chunk covering the whole text). -/
def c7_store : StoreState :=
  { document_metadata := [
      { file_path := "data/a.txt", file_type := ".txt",
        document_summary := c7_text,
        key_topics := ["abcdefghijklmnopqrstuvwxyz", "abcdefghijk"],
        full_text := c7_text }],
    chunk_metadata := [
      { document_index := 0, chunk_text := c7_text, page_number := 1,
        chunk_index := 0, source := "data/a.txt", file_type := ".txt" }],
    document_index := some [[0]],
    chunk_index := some [[0]] }

/-- A store holding two documents with two chunks each, for witnesses that
need a slightly richer collection. -/
def two_doc_store : StoreState :=
  { document_metadata := [
      { file_path := "data/a.txt", file_type := ".txt",
        document_summary := "first summary", key_topics := ["alpha"],
        full_text := "first text" },
      { file_path := "data/b.txt", file_type := ".txt",
        document_summary := "second summary", key_topics := ["beta"],
        full_text := "second text" }],
    chunk_metadata := [
      { document_index := 0, chunk_text := "first text one", page_number := 1,
        chunk_index := 0, source := "data/a.txt", file_type := ".txt" },
      { document_index := 0, chunk_text := "first text two", page_number := 1,
        chunk_index := 1, source := "data/a.txt", file_type := ".txt" },
      { document_index := 1, chunk_text := "second text one", page_number := 1,
        chunk_index := 0, source := "data/b.txt", file_type := ".txt" },
      { document_index := 1, chunk_text := "second text two", page_number := 1,
        chunk_index := 1, source := "data/b.txt", file_type := ".txt" }],
    document_index := some [[0], [1]],
    chunk_index := some [[0], [1], [2], [3]] }

/-- An analysis batch for the build witness: one document with two chunks,
embedded by a constant embedding function. -/
def witness_chunk (i : Nat) (t : String) : SemanticChunk :=
  { text := t, page_number := 1, chunk_index := i,
    source := "data/a.txt", file_type := ".txt" }

def witness_analysis : Analysis :=
  { file_path := "data/a.txt", file_type := ".txt",
    document_summary := "first summary", key_topics := ["alpha"],
    full_text := "first text",
    semantic_chunks := [witness_chunk 0 "first text one", witness_chunk 1 "first text two"],
    document_embedding := [1],
    chunk_embeddings := [[2], [3]] }

/-- A failed analysis (empty document embedding), as `_create_empty_analysis`
returns for a document that could not be loaded. -/
def failed_analysis : Analysis :=
  { file_path := "data/broken.bin", file_type := ".bin",
    document_summary := "Failed to load document content", key_topics := [],
    full_text := "", semantic_chunks := [],
    document_embedding := [], chunk_embeddings := [] }

/-- A concrete chunk result for witnesses. -/
def wit_chunk_result (r : Nat) (t : String) : ChunkResult :=
  { rank := r,
    chunk := { document_index := 0, chunk_text := t, page_number := 1,
               chunk_index := r - 1, source := "data/a.txt", file_type := ".txt" },
    document_info := { file_path := "data/a.txt", file_type := ".txt",
                       document_summary := "first summary", key_topics := ["alpha"],
                       full_text := "first text" } }

/-- A search result with six ranked chunks. -/
def c9_result : HybridSearchResult :=
  { query := "q",
    relevant_documents := [{ rank := 1, document :=
      { file_path := "data/a.txt", file_type := ".txt",
        document_summary := "first summary", key_topics := ["alpha"],
        full_text := "first text" } }],
    relevant_chunks := [wit_chunk_result 1 "t1", wit_chunk_result 2 "t2",
      wit_chunk_result 3 "t3", wit_chunk_result 4 "t4", wit_chunk_result 5 "t5",
      wit_chunk_result 6 "t6"],
    search_strategy := "balanced_hybrid" }

/-- The same search result with a different sixth chunk (identical top 5). -/
def c9_result_variant : HybridSearchResult :=
  { c9_result with relevant_chunks := [wit_chunk_result 1 "t1", wit_chunk_result 2 "t2",
      wit_chunk_result 3 "t3", wit_chunk_result 4 "t4", wit_chunk_result 5 "t5",
      wit_chunk_result 6 "other"] }

/-- The 25 data rows of the CSV scenario. -/
def c6_rows : List String :=
  ["1", "2", "3", "4", "5", "6", "7", "8", "9", "10", "11", "12", "13",
   "14", "15", "16", "17", "18", "19", "20", "21", "22", "23", "24", "25"]

/-- A CSV content with 1 header line and 25 data lines. -/
def c6_content : String :=
  "h,a\n1\n2\n3\n4\n5\n6\n7\n8\n9\n10\n11\n12\n13\n14\n15\n16\n17\n18\n19\n20\n21\n22\n23\n24\n25"

/-! # Theorems -/

/-! ## Helper lemmas -/

theorem py_join_cons_ne_nil (sep x : String) (xs : List String) :
    ∃ t, py_join sep (x :: xs) = x ++ t := by
  cases xs with
  | nil => exact ⟨"", by simp [py_join]⟩
  | cons y ys => exact ⟨sep ++ py_join sep (y :: ys), by simp [py_join, String.append_assoc]⟩

theorem chunk_filter_skip_empty_eq (meta : ChunkMeta) :
    chunk_filter_skip (some []) meta = chunk_filter_skip none meta := rfl

theorem search_chunks_loop_empty_filter (s : StoreState) (top_k : Nat) :
    ∀ (l : List Nat) (count : Nat),
      search_chunks_loop s (some []) top_k l count =
      search_chunks_loop s none top_k l count := by
  intro l
  induction l with
  | nil => intro count; rfl
  | cons idx rest ih =>
    intro count
    simp only [search_chunks_loop, chunk_filter_skip_empty_eq, ih]

/-! ## Claim theorems -/

/-- C10: for every store state, query (ranking), and width, `search_chunks`
with an empty document-filter list returns exactly the same results as
`search_chunks` with no filter: an empty filter (falsy in Python) disables
filtering entirely rather than discarding every chunk. -/
theorem claim_C10_empty_filter_eq_unfiltered (s : StoreState) (query : String)
    (ranking : List Nat) (top_k : Nat) :
    search_chunks s query ranking top_k (some []) =
    search_chunks s query ranking top_k none := by
  unfold search_chunks
  cases s.chunk_index with
  | none => rfl
  | some v => exact search_chunks_loop_empty_filter s top_k _ 0

/-- C8: with a loaded index, the rebuild decision of
`_initialize_vectorstore` fires exactly when the current locator set differs
from the indexed locator set — some locator is on one side and not the other
(covering added-only, removed-only and both-changed); an identical set never
triggers a rebuild. -/
theorem claim_C8_staleness_iff_locator_sets_differ
    (current_files indexed_files : List String) :
    initialize_needs_rebuild true current_files indexed_files = true ↔
    ∃ l, ¬ (l ∈ current_files ↔ l ∈ indexed_files) := by
  simp only [initialize_needs_rebuild, if_true, decide_eq_true_eq, ne_eq]
  rw [Finset.ext_iff]
  rw [not_forall]
  constructor
  · rintro ⟨l, hl⟩
    exact ⟨l, by simpa [List.mem_toFinset] using hl⟩
  · rintro ⟨l, hl⟩
    exact ⟨l, by simpa [List.mem_toFinset] using hl⟩

/-- C4 (counterexample): on an engine in which zero documents have been built
(the freshly initialised store), `hybrid_search` does not fail: it returns an
ordinary, fully formed result record whose document and chunk lists are
simply empty — the "empty-but-successful" outcome the claim rules out.  No
`IndexUnavailable`-style failure value exists anywhere on this code path. -/
theorem claim_C4_counterexample :
    hybrid_search initial_store "what is in the collection" [] [] 3 10 =
    { query := "what is in the collection", relevant_documents := [],
      relevant_chunks := [], search_strategy := "balanced_hybrid" } := by
  rfl

/-- C4 (amended): querying an engine with zero built documents returns an
empty-but-successful result — `hybrid_search` returns a normal result record
with empty document and chunk lists (and `search_documents`/`search_chunks`
return empty lists), rather than failing with an `IndexUnavailable` error. -/
theorem claim_C4_amended_empty_store_returns_empty_success
    (s : StoreState) (query : String) (doc_ranking chunk_ranking : List Nat)
    (doc_top_k chunk_top_k : Nat)
    (hdoc : s.document_index = none) (hchunk : s.chunk_index = none) :
    hybrid_search s query doc_ranking chunk_ranking doc_top_k chunk_top_k =
    { query := query, relevant_documents := [], relevant_chunks := [],
      search_strategy := "balanced_hybrid" } := by
  unfold hybrid_search search_documents search_chunks
  rw [hdoc, hchunk]
  simp only [balanced_loop, List.length_nil]
  split <;> rfl

theorem claim_C4_amended_witness :
    initial_store.document_index = none ∧ initial_store.chunk_index = none ∧
    hybrid_search initial_store "q" [0] [0] 2 5 =
      { query := "q", relevant_documents := [], relevant_chunks := [],
        search_strategy := "balanced_hybrid" } :=
  ⟨rfl, rfl,
    claim_C4_amended_empty_store_returns_empty_success initial_store "q" [0] [0] 2 5 rfl rfl⟩

/-- C9: when the external generation call fails, `_generate_intelligent_response`
returns the deterministic fallback response built from the search results —
and that fallback depends only on the top 3 documents and the top 5 chunks of
the result (it renders documents by summary and chunks by text) — rather than
surfacing a hard error to the caller. -/
theorem claim_C9_generation_failure_falls_back
    (llm : String → Except String String) (query context : String)
    (res res' : HybridSearchResult) (e : String)
    (hfail : llm (intelligent_prompt query context) = Except.error e)
    (h3 : res.relevant_documents.take 3 = res'.relevant_documents.take 3)
    (h5 : res.relevant_chunks.take 5 = res'.relevant_chunks.take 5) :
    generate_intelligent_response llm query context res = fallback_response query res ∧
    fallback_response query res = fallback_response query res' := by
  constructor
  · unfold generate_intelligent_response
    rw [hfail]
  · have hrd : res.relevant_documents.isEmpty = res'.relevant_documents.isEmpty := by
      rcases h : res.relevant_documents with _ | ⟨a, l⟩ <;>
        rcases h' : res'.relevant_documents with _ | ⟨b, m⟩ <;>
        first
          | rfl
          | (exfalso; rw [h, h'] at h3; simp at h3)
    have hcd : res.relevant_chunks.isEmpty = res'.relevant_chunks.isEmpty := by
      rcases h : res.relevant_chunks with _ | ⟨a, l⟩ <;>
        rcases h' : res'.relevant_chunks with _ | ⟨b, m⟩ <;>
        first
          | rfl
          | (exfalso; rw [h, h'] at h5; simp at h5)
    unfold fallback_response
    rw [h3, h5, hrd, hcd]

theorem claim_C9_witness :
    ((fun _ => (Except.error "boom" : Except String String))
        (intelligent_prompt "why" "ctx") = Except.error "boom") ∧
    c9_result.relevant_chunks.take 5 = c9_result_variant.relevant_chunks.take 5 ∧
    (generate_intelligent_response (fun _ => Except.error "boom") "why" "ctx" c9_result =
        fallback_response "why" c9_result ∧
      fallback_response "why" c9_result = fallback_response "why" c9_result_variant) :=
  ⟨rfl, by decide,
    claim_C9_generation_failure_falls_back (fun _ => Except.error "boom") "why" "ctx"
      c9_result c9_result_variant "boom" rfl rfl (by decide)⟩

theorem topic_filter_fuse (runs : List (List Char)) :
    ((runs.filter (fun r => r.all Char.isAlpha && decide (4 ≤ r.length))).map
        String.mk).filter
      (fun w => decide (w ∉ stop_words) && decide (4 < str_len w)) =
    ((runs.filter (fun r => r.all Char.isAlpha && decide (5 ≤ r.length))).map
        String.mk).filter
      (fun w => decide (w ∉ stop_words)) := by
  rw [List.filter_map, List.filter_map, List.filter_filter, List.filter_filter]
  congr 1
  apply List.filter_congr
  intro r _
  have hl : str_len (String.mk r) = r.length := rfl
  simp only [Function.comp, hl]
  by_cases h5 : 5 ≤ r.length
  · have h4 : 4 < r.length := h5
    have h4le : 4 ≤ r.length := by omega
    simp [h4, h4le, h5]
  · have h4 : ¬ 4 < r.length := by omega
    simp [h4, h5]

/-- C5 (counterexample): on the text "word word" the claim's reading of topic
extraction (alphabetic tokens of length ≥ 4, stop words removed, counted and
ranked) yields `["word"]`, but `_extract_key_topics` yields `[]`: its loop
keeps a word only when `len(word) > 4`, so four-letter tokens are always
discarded even though the regex admits them. -/
theorem claim_C5_counterexample :
    extract_key_topics "word word" = [] ∧
    extract_key_topics_claimed "word word" = ["word"] := by
  constructor <;> rfl

/-- C5 (amended): for every input text, topic extraction returns the
lower-cased alphabetic tokens of length ≥ 5 (the regex admits length ≥ 4 but
the `len(word) > 4` test then drops the four-letter ones) that are not
stop-words, frequency-counted in first-seen order, with the top 20 by
descending frequency returned and ties broken by first-seen order (stable
sort). -/
theorem claim_C5_amended_topics_length_five (text : String) :
    extract_key_topics text = extract_key_topics_spec text := by
  unfold extract_key_topics extract_key_topics_spec findall_words
  dsimp only
  rw [topic_filter_fuse]

theorem group_rows_aux_congr :
    ∀ (f1 f2 : Nat) (rows : List String), rows.length ≤ f1 → rows.length ≤ f2 →
      group_rows_aux f1 rows = group_rows_aux f2 rows := by
  intro f1
  induction f1 with
  | zero =>
    intro f2 rows h1 _
    have : rows = [] := List.length_eq_zero.mp (Nat.le_zero.mp h1)
    subst this
    cases f2 <;> rfl
  | succ f1' ih =>
    intro f2 rows h1 h2
    cases rows with
    | nil => cases f2 <;> rfl
    | cons r rs =>
      cases f2 with
      | zero => simp at h2
      | succ f2' =>
        simp only [group_rows_aux]
        congr 1
        apply ih
        · simp only [List.length_drop, List.length_cons] at *
          omega
        · simp only [List.length_drop, List.length_cons] at *
          omega

theorem group_rows_cons (rows : List String) (h : rows ≠ []) :
    group_rows rows = rows.take 10 :: group_rows (rows.drop 10) := by
  obtain ⟨r, rs, rfl⟩ := List.exists_cons_of_ne_nil h
  show group_rows_aux (r :: rs).length (r :: rs) = _
  simp only [List.length_cons, group_rows_aux]
  congr 1
  apply group_rows_aux_congr
  · simp only [List.length_drop, List.length_cons]
    omega
  · exact le_refl _

theorem has_non_whitespace_append_left (a b : String)
    (h : has_non_whitespace a = true) : has_non_whitespace (a ++ b) = true := by
  unfold has_non_whitespace at *
  rw [String.data_append, List.any_append, h]
  rfl

theorem py_join_header_non_ws (header : String) (b : List String)
    (hb : b ≠ []) (h : has_non_whitespace header = true) :
    has_non_whitespace (py_join "\n" (header :: b)) = true := by
  obtain ⟨b0, b', rfl⟩ := List.exists_cons_of_ne_nil hb
  show has_non_whitespace (header ++ "\n" ++ py_join "\n" (b0 :: b')) = true
  exact has_non_whitespace_append_left _ _ (has_non_whitespace_append_left _ _ h)

theorem chunk_csv_content_cons (content header r : String) (rs : List String)
    (h : py_split_char '\n' content = header :: r :: rs) :
    chunk_csv_content content =
      (let chunks := ((group_rows (r :: rs)).map
          (fun b => py_join "\n" (header :: b))).filter has_non_whitespace
        if chunks.isEmpty then [content] else chunks) := by
  unfold chunk_csv_content
  rw [h]

/-- C6: tabular (CSV) chunking groups the data rows into fixed-size blocks of
10 rows, each block prefixed with the header row; for a content of 1 header
line and 25 data lines (with a non-blank header) the result is exactly
ceil(25/10) = 3 chunks — rows 1–10, rows 11–20 and rows 21–25 — each carrying
the header as its first line. -/
theorem claim_C6_csv_chunking (content header : String) (rows : List String)
    (hsplit : py_split_char '\n' content = header :: rows)
    (hlen : rows.length = 25)
    (hws : has_non_whitespace header = true) :
    chunk_csv_content content =
      [py_join "\n" (header :: rows.take 10),
       py_join "\n" (header :: (rows.drop 10).take 10),
       py_join "\n" (header :: rows.drop 20)] := by
  have hne : rows ≠ [] := by intro hcon; rw [hcon] at hlen; simp at hlen
  obtain ⟨r, rs, hrows⟩ := List.exists_cons_of_ne_nil hne
  rw [chunk_csv_content_cons content header r rs (by rw [hsplit, hrows])]
  rw [← hrows]
  have hg : group_rows rows =
      [rows.take 10, (rows.drop 10).take 10, rows.drop 20] := by
    have hd10 : rows.drop 10 ≠ [] := by
      intro hcon
      have := congrArg List.length hcon
      simp only [List.length_drop, hlen] at this
      simp at this
    have hd20 : rows.drop 20 ≠ [] := by
      intro hcon
      have := congrArg List.length hcon
      simp only [List.length_drop, hlen] at this
      simp at this
    have hd30 : rows.drop 30 = [] := List.drop_eq_nil_of_le (by rw [hlen]; omega)
    have e1 := group_rows_cons rows hne
    have e2 := group_rows_cons _ hd10
    have e3 := group_rows_cons _ hd20
    rw [List.drop_drop] at e2 e3
    norm_num at e2 e3
    have e4 : group_rows (rows.drop 30) = [] := by rw [hd30]; rfl
    have e5 : (rows.drop 20).take 10 = rows.drop 20 :=
      List.take_of_length_le (by rw [List.length_drop, hlen]; omega)
    rw [e1, e2, e3, e4, e5]
  rw [hg]
  have ht10 : rows.take 10 ≠ [] := by
    intro hcon
    have := congrArg List.length hcon
    simp [List.length_take, hlen] at this
  have ht20 : (rows.drop 10).take 10 ≠ [] := by
    intro hcon
    have := congrArg List.length hcon
    simp [List.length_take, List.length_drop, hlen] at this
  have ht25 : rows.drop 20 ≠ [] := by
    intro hcon
    have := congrArg List.length hcon
    simp [List.length_drop, hlen] at this
  simp only [List.map_cons, List.map_nil, List.filter,
    py_join_header_non_ws header _ ht10 hws,
    py_join_header_non_ws header _ ht20 hws,
    py_join_header_non_ws header _ ht25 hws]
  rfl

theorem claim_C6_witness :
    (py_split_char '\n' c6_content = "h,a" :: c6_rows) ∧
    chunk_csv_content c6_content =
      [py_join "\n" ("h,a" :: c6_rows.take 10),
       py_join "\n" ("h,a" :: (c6_rows.drop 10).take 10),
       py_join "\n" ("h,a" :: c6_rows.drop 20)] :=
  ⟨by decide,
    claim_C6_csv_chunking c6_content "h,a" c6_rows (by decide) (by decide) (by decide)⟩

/-- The embedding generator always returns exactly one chunk vector per
semantic chunk, which is how the `build_from_documents` hypothesis on
analyses is discharged in reality. -/
theorem generate_embeddings_one_per_chunk (embed : String → List Int)
    (summary : String) (chunks : List SemanticChunk) :
    (generate_multi_level_embeddings embed summary chunks).2.length = chunks.length := by
  simp [generate_multi_level_embeddings]

theorem build_loop_invariant :
    ∀ (analyses : List Analysis) (acc : BuildAcc),
      (∀ a ∈ analyses, a.chunk_embeddings.length = a.semantic_chunks.length) →
      acc.chunk_metadata.length = acc.all_chunk_embeddings.length →
      (∀ c ∈ acc.chunk_metadata, c.document_index < acc.document_metadata.length) →
      (build_loop acc analyses).chunk_metadata.length =
          (build_loop acc analyses).all_chunk_embeddings.length ∧
        ∀ c ∈ (build_loop acc analyses).chunk_metadata,
          c.document_index < (build_loop acc analyses).document_metadata.length := by
  intro analyses
  induction analyses with
  | nil => intro acc _ hlen hidx; exact ⟨hlen, hidx⟩
  | cons a rest ih =>
    intro acc hana hlen hidx
    have hana_rest : ∀ b ∈ rest, b.chunk_embeddings.length = b.semantic_chunks.length :=
      fun b hb => hana b (List.mem_cons_of_mem a hb)
    show (build_loop acc (a :: rest)).chunk_metadata.length = _ ∧ _
    unfold build_loop
    by_cases hde : a.document_embedding.isEmpty
    · simp only [hde, if_true]
      exact ih acc hana_rest hlen hidx
    · simp only [hde, if_false, Bool.false_eq_true]
      by_cases hce : a.chunk_embeddings.isEmpty
      · simp only [hce, if_true]
        apply ih
        · exact hana_rest
        · exact hlen
        · intro c hc
          have := hidx c hc
          simp only [List.length_append, List.length_cons, List.length_nil]
          omega
      · simp only [hce, if_false, Bool.false_eq_true]
        apply ih
        · exact hana_rest
        · show (acc.chunk_metadata ++ _).length = (acc.all_chunk_embeddings ++ _).length
          simp only [List.length_append, List.length_map]
          rw [hana a (List.mem_cons_self a rest), hlen]
        · intro c hc
          simp only [List.length_append, List.length_cons, List.length_nil]
          rcases List.mem_append.mp hc with hin | hin
          · have := hidx c hin
            omega
          · obtain ⟨sc, _, rfl⟩ := List.mem_map.mp hin
            simp only [mk_chunk_meta, List.length_append, List.length_cons, List.length_nil]
            omega

theorem build_loop_embeddings (embed : String → List Int) :
    ∀ (analyses : List Analysis) (acc : BuildAcc),
      (∀ a ∈ analyses, a.chunk_embeddings = a.semantic_chunks.map (fun c => embed c.text)) →
      acc.all_chunk_embeddings = acc.chunk_metadata.map (fun m => embed m.chunk_text) →
      (build_loop acc analyses).all_chunk_embeddings =
        (build_loop acc analyses).chunk_metadata.map (fun m => embed m.chunk_text) := by
  intro analyses
  induction analyses with
  | nil => intro acc _ hacc; exact hacc
  | cons a rest ih =>
    intro acc hana hacc
    have hana_rest : ∀ b ∈ rest, b.chunk_embeddings = b.semantic_chunks.map (fun c => embed c.text) :=
      fun b hb => hana b (List.mem_cons_of_mem a hb)
    show (build_loop acc (a :: rest)).all_chunk_embeddings = _
    unfold build_loop
    by_cases hde : a.document_embedding.isEmpty
    · simp only [hde, if_true]
      exact ih acc hana_rest hacc
    · simp only [hde, if_false, Bool.false_eq_true]
      by_cases hce : a.chunk_embeddings.isEmpty
      · simp only [hce, if_true]
        apply ih
        · exact hana_rest
        · exact hacc
      · simp only [hce, if_false, Bool.false_eq_true]
        apply ih
        · exact hana_rest
        · show acc.all_chunk_embeddings ++ a.chunk_embeddings =
            (acc.chunk_metadata ++ a.semantic_chunks.map
              (mk_chunk_meta ((acc.document_metadata ++ [mk_doc_meta a]).length - 1))).map
              (fun m => embed m.chunk_text)
          rw [List.map_append, ← hacc, hana a (List.mem_cons_self a rest),
            List.map_map]
          rfl

/-- C1: for every built index (a `build_from_documents` pass over a cleared
store, each analysis carrying the chunk-embedding array the embedding
provider produced — one vector per semantic chunk, in chunk order), the
chunk-embedding array of the chunk index and the chunk-metadata array have
identical length and identical order: the array of index vectors is exactly
the metadata array mapped through the embedding of each record's chunk text,
so the vector at position i belongs to the metadata record at position i.
Moreover every chunk record's `document_index` is a valid index into the
document-metadata array. -/
theorem claim_C1_build_invariant (embed : String → List Int)
    (init : StoreState) (analyses : List Analysis)
    (hembed : ∀ a ∈ analyses,
      a.chunk_embeddings = a.semantic_chunks.map (fun c => embed c.text))
    (hdm : init.document_metadata = []) (hcm : init.chunk_metadata = [])
    (hci : init.chunk_index = none) :
    (build_from_documents init analyses).chunk_index.getD [] =
        (build_from_documents init analyses).chunk_metadata.map
          (fun m => embed m.chunk_text) ∧
      ∀ c ∈ (build_from_documents init analyses).chunk_metadata,
        c.document_index < (build_from_documents init analyses).document_metadata.length := by
  have hlen : ∀ a ∈ analyses, a.chunk_embeddings.length = a.semantic_chunks.length := by
    intro a ha
    rw [hembed a ha, List.length_map]
  unfold build_from_documents
  rw [hdm, hcm, hci]
  have hinv := build_loop_invariant analyses ⟨[], [], [], []⟩ hlen rfl (by intro c hc; simp at hc)
  have hemb := build_loop_embeddings embed analyses ⟨[], [], [], []⟩ hembed rfl
  refine ⟨?_, hinv.2⟩
  by_cases hce : (build_loop ⟨[], [], [], []⟩ analyses).all_chunk_embeddings.isEmpty
  · simp only [hce, if_true, Option.getD_none]
    have hnil := List.isEmpty_iff.mp hce
    rw [hnil] at hemb
    exact hemb
  · simp only [hce, if_false, Bool.false_eq_true, Option.getD_some]
    exact hemb

theorem claim_C1_witness :
    (∀ a ∈ [witness_analysis, failed_analysis],
        a.chunk_embeddings = a.semantic_chunks.map
          (fun c => if c.text = "first text one" then [2] else [3])) ∧
    (build_from_documents initial_store
          [witness_analysis, failed_analysis]).chunk_index.getD [] =
        (build_from_documents initial_store
          [witness_analysis, failed_analysis]).chunk_metadata.map
          (fun m => if m.chunk_text = "first text one" then [2] else [3]) ∧
      ∀ c ∈ (build_from_documents initial_store
          [witness_analysis, failed_analysis]).chunk_metadata,
        c.document_index <
          (build_from_documents initial_store
            [witness_analysis, failed_analysis]).document_metadata.length :=
  ⟨by decide,
    claim_C1_build_invariant (fun t => if t = "first text one" then [2] else [3])
      initial_store [witness_analysis, failed_analysis]
      (by decide) rfl rfl rfl⟩

theorem docs_fold_eq_loop (m : Nat) :
    ∀ (docs : List DocResult) (acc : List String) (cur : Nat),
      List.foldl (spec_doc_step m) (acc, cur) docs =
      (acc ++ (docs_context_loop m docs cur).1, (docs_context_loop m docs cur).2) := by
  intro docs
  induction docs with
  | nil => intro acc cur; simp [docs_context_loop]
  | cons d rest ih =>
    intro acc cur
    simp only [List.foldl_cons, docs_context_loop]
    by_cases hfit : cur + str_len (context_doc_part d) < m
    · rw [show spec_doc_step m (acc, cur) d =
          (acc ++ [context_doc_part d], cur + str_len (context_doc_part d)) by
        simp [spec_doc_step, hfit]]
      rw [ih]
      simp [hfit]
    · rw [show spec_doc_step m (acc, cur) d = (acc, cur) by simp [spec_doc_step, hfit]]
      rw [ih]
      simp [hfit]

theorem chunks_fold_stopped (m : Nat) :
    ∀ (chunks : List ChunkResult) (acc : List String) (cur : Nat),
      (List.foldl (spec_chunk_step m) (acc, cur, true) chunks).1 = acc := by
  intro chunks
  induction chunks with
  | nil => intro acc cur; rfl
  | cons c rest ih =>
    intro acc cur
    simp only [List.foldl_cons]
    rw [show spec_chunk_step m (acc, cur, true) c = (acc, cur, true) by
      simp [spec_chunk_step]]
    exact ih acc cur

theorem chunks_fold_eq_loop (m : Nat) :
    ∀ (chunks : List ChunkResult) (acc : List String) (cur : Nat),
      (List.foldl (spec_chunk_step m) (acc, cur, false) chunks).1 =
      acc ++ chunks_context_loop m chunks cur := by
  intro chunks
  induction chunks with
  | nil => intro acc cur; simp [chunks_context_loop]
  | cons c rest ih =>
    intro acc cur
    simp only [List.foldl_cons, chunks_context_loop]
    by_cases hfit : cur + str_len (context_chunk_part c) < m
    · rw [show spec_chunk_step m (acc, cur, false) c =
          (acc ++ [context_chunk_part c], cur + str_len (context_chunk_part c), false) by
        simp [spec_chunk_step, hfit]]
      rw [ih]
      simp [hfit]
    · rw [show spec_chunk_step m (acc, cur, false) c = (acc, cur, true) by
        simp [spec_chunk_step, hfit]]
      rw [chunks_fold_stopped]
      simp [hfit]

/-- C7 (counterexample): with `maxChars = 50` and a non-empty search result
(one short single-paragraph document whose summary piece is 117 characters),
`get_comprehensive_context` *does* emit chunk content: the oversized summary
piece is skipped without consuming budget, and the 49-character chunk piece
then fits, so the output ends with the full chunk text — contradicting the
claim that at this budget no chunk content can appear. -/
theorem claim_C7_counterexample :
    get_comprehensive_context c7_store "query" [0] [0] 50 =
      "=== DOCUMENT SUMMARIES ===\n\n=== RELEVANT CONTENT ===\n\n[Page 1] " ++
        c7_text ++ "\n" := by
  decide

/-- C7 (amended): `assembleContext` appends the "DOCUMENT SUMMARIES" header
unconditionally, then each document summary piece (500-char-truncated summary
with its top-5 topics) only when it keeps the running total strictly below
`maxChars` — an oversized piece is skipped and later summaries are still
considered — then the "RELEVANT CONTENT" header unconditionally, then chunk
pieces (each tagged with its page number) in ranked order, stopping at the
first that would not fit.  Headers are never counted against the budget, so
the output always extends the "DOCUMENT SUMMARIES" header; chunk content may
appear even under a tiny budget when the summary pieces were all skipped. -/
theorem claim_C7_amended_greedy_assembly (s : StoreState) (query : String)
    (doc_ranking chunk_ranking : List Nat) (max_context_length : Nat) :
    get_comprehensive_context s query doc_ranking chunk_ranking max_context_length =
      spec_assemble_context s query doc_ranking chunk_ranking max_context_length ∧
    ∃ t, get_comprehensive_context s query doc_ranking chunk_ranking max_context_length =
      "=== DOCUMENT SUMMARIES ===" ++ t := by
  constructor
  · unfold get_comprehensive_context spec_assemble_context spec_docs_scan spec_chunks_scan
    dsimp only
    rw [docs_fold_eq_loop, chunks_fold_eq_loop]
    simp
  · unfold get_comprehensive_context
    dsimp only
    rw [List.cons_append]
    exact py_join_cons_ne_nil "\n" _ _

theorem search_chunks_loop_rank_gt (s : StoreState) (df : Option (List Nat))
    (k : Nat) :
    ∀ (l : List Nat) (count : Nat),
      ∀ r ∈ search_chunks_loop s df k l count, count < r.rank := by
  intro l
  induction l with
  | nil => intro count r hr; simp [search_chunks_loop] at hr
  | cons idx rest ih =>
    intro count r hr
    unfold search_chunks_loop at hr
    by_cases hidx : idx < s.chunk_metadata.length
    · simp only [hidx, if_true] at hr
      by_cases hskip : chunk_filter_skip df (s.chunk_metadata.getD idx default)
      · simp only [hskip, if_true] at hr
        exact ih count r hr
      · simp only [hskip, if_false, Bool.false_eq_true] at hr
        by_cases hbreak : k ≤ count + 1
        · simp only [hbreak, if_true, List.mem_singleton] at hr
          subst hr
          exact Nat.lt_succ_self count
        · simp only [hbreak, if_false] at hr
          rcases List.mem_cons.mp hr with hr | hr
          · subst hr
            exact Nat.lt_succ_self count
          · exact Nat.lt_of_succ_lt (ih (count + 1) r hr)
    · simp only [hidx, if_false] at hr
      exact ih count r hr

theorem search_chunks_loop_nodup (s : StoreState) (df : Option (List Nat))
    (k : Nat) :
    ∀ (l : List Nat) (count : Nat), (search_chunks_loop s df k l count).Nodup := by
  intro l
  induction l with
  | nil => intro count; simp [search_chunks_loop]
  | cons idx rest ih =>
    intro count
    unfold search_chunks_loop
    by_cases hidx : idx < s.chunk_metadata.length
    · simp only [hidx, if_true]
      by_cases hskip : chunk_filter_skip df (s.chunk_metadata.getD idx default)
      · simp only [hskip, if_true]
        exact ih count
      · simp only [hskip, if_false, Bool.false_eq_true]
        by_cases hbreak : k ≤ count + 1
        · simp only [hbreak, if_true]
          exact List.nodup_singleton _
        · simp only [hbreak, if_false]
          refine List.Nodup.cons ?_ (ih (count + 1))
          intro hmem
          have := search_chunks_loop_rank_gt s df k rest (count + 1) _ hmem
          simp at this
    · simp only [hidx, if_false]
      exact ih count

theorem search_chunks_nodup (s : StoreState) (query : String) (ranking : List Nat)
    (top_k : Nat) (df : Option (List Nat)) :
    (search_chunks s query ranking top_k df).Nodup := by
  unfold search_chunks
  cases s.chunk_index with
  | none => simp
  | some _ => exact search_chunks_loop_nodup s df top_k _ 0

theorem balanced_loop_eq_diversity_walk (max_per_doc chunk_top_k : Nat) :
    ∀ (l acc : List ChunkResult) (counts : Nat → Nat),
      (∀ d, counts d = acc.countP (fun x => x.chunk.document_index == d)) →
      balanced_loop max_per_doc chunk_top_k l acc counts =
        diversity_walk max_per_doc chunk_top_k l acc := by
  intro l
  induction l with
  | nil => intro acc counts _; rfl
  | cons c rest ih =>
    intro acc counts hcounts
    unfold balanced_loop diversity_walk
    dsimp only
    rw [hcounts c.chunk.document_index]
    by_cases haccept : acc.countP (fun x => x.chunk.document_index == c.chunk.document_index)
        < max_per_doc ∨ acc.length < chunk_top_k / 2
    · have hacceptb : (decide (acc.countP
            (fun x => x.chunk.document_index == c.chunk.document_index) < max_per_doc) ||
          decide (acc.length < chunk_top_k / 2)) = true := by
        rcases haccept with h | h <;> simp [h]
      rw [hacceptb]
      simp only [if_true]
      by_cases hbreak : chunk_top_k ≤ (acc ++ [c]).length
      · simp only [hbreak, if_true]
      · simp only [hbreak, if_false]
        apply ih
        intro d
        rw [List.countP_append]
        by_cases hd : c.chunk.document_index = d
        · subst hd
          simp [hcounts]
        · have hd1 : ¬ d = c.chunk.document_index := fun h => hd h.symm
          rw [if_neg hd1, hcounts d]
          have hbc : List.countP (fun x => x.chunk.document_index == d) [c] = 0 := by
            simp [hd]
          rw [hbc, Nat.add_zero]
    · have hacceptb : (decide (acc.countP
            (fun x => x.chunk.document_index == c.chunk.document_index) < max_per_doc) ||
          decide (acc.length < chunk_top_k / 2)) = false := by
        push_neg at haccept
        simp [haccept.1, haccept.2]
      rw [hacceptb]
      simp only [Bool.false_eq_true, if_false]
      exact ih acc counts hcounts

theorem backfill_loop_eq_filter_take (chunk_top_k : Nat) :
    ∀ (l acc : List ChunkResult), l.Nodup → acc.length < chunk_top_k →
      backfill_loop chunk_top_k l acc =
        acc ++ (l.filter (fun c => c ∉ acc)).take (chunk_top_k - acc.length) := by
  intro l
  induction l with
  | nil => intro acc _ _; simp [backfill_loop]
  | cons c rest ih =>
    intro acc hnodup hlen
    have hrest : rest.Nodup := hnodup.of_cons
    have hcrest : c ∉ rest := (List.nodup_cons.mp hnodup).1
    unfold backfill_loop
    by_cases hmem : c ∈ acc
    · simp only [hmem, if_true, List.filter_cons]
      have : ¬ (decide (c ∉ acc)) = true := by simp [hmem]
      simp only [decide_not, this]
      rw [ih acc hrest hlen]
      simp [hmem]
    · simp only [hmem, if_false]
      have hfc : (c :: rest).filter (fun x => decide (x ∉ acc)) =
          c :: rest.filter (fun x => decide (x ∉ acc)) := by
        simp [List.filter_cons, hmem]
      by_cases hbreak : chunk_top_k ≤ (acc ++ [c]).length
      · simp only [hbreak, if_true]
        have hk : chunk_top_k - acc.length = 1 := by
          simp only [List.length_append, List.length_cons, List.length_nil] at hbreak
          omega
        rw [hfc, hk]
        simp
      · simp only [hbreak, if_false]
        have hlen2 : (acc ++ [c]).length < chunk_top_k := by
          simp only [List.length_append, List.length_cons, List.length_nil] at *
          omega
        rw [ih (acc ++ [c]) hrest hlen2]
        have hfilters : rest.filter (fun x => decide (x ∉ acc ++ [c])) =
            rest.filter (fun x => decide (x ∉ acc)) := by
          apply List.filter_congr
          intro x hx
          have hxc : x ≠ c := fun h => hcrest (h ▸ hx)
          simp [List.mem_append, hxc]
        rw [hfilters, hfc]
        have hk2 : chunk_top_k - acc.length = (chunk_top_k - (acc ++ [c]).length) + 1 := by
          simp only [List.length_append, List.length_cons, List.length_nil] at *
          omega
        rw [hk2]
        simp [List.take_succ_cons]

/-- The chunk half of `hybrid_search`, characterised: for a non-empty
document collection, the selected chunks are exactly the spec-side diversity
selection over the over-fetched unfiltered chunk search, with
`max_per_doc = max 2 (chunk_top_k / documentCount)`. -/
theorem hybrid_chunks_characterisation (s : StoreState) (query : String)
    (doc_ranking chunk_ranking : List Nat) (doc_top_k chunk_top_k : Nat)
    (hmeta : s.document_metadata ≠ []) :
    (hybrid_search s query doc_ranking chunk_ranking doc_top_k chunk_top_k).relevant_chunks =
      diversity_spec (search_chunks s query chunk_ranking (chunk_top_k * 2) none)
        chunk_top_k (max 2 (chunk_top_k / s.document_metadata.length)) := by
  unfold hybrid_search diversity_spec
  dsimp only
  have hempty : s.document_metadata.isEmpty = false := by
    cases h : s.document_metadata with
    | nil => exact absurd h hmeta
    | cons a l => rfl
  rw [hempty]
  simp only [Bool.false_eq_true, if_false]
  rw [balanced_loop_eq_diversity_walk _ _ _ [] _ (fun d => by simp)]
  set all := search_chunks s query chunk_ranking (chunk_top_k * 2) none with hall
  set walk := diversity_walk (max 2 (chunk_top_k / s.document_metadata.length))
    chunk_top_k all [] with hwalk
  by_cases hshort : walk.length < chunk_top_k
  · simp only [hshort, if_true]
    rw [backfill_loop_eq_filter_take chunk_top_k all walk
      (search_chunks_nodup s query chunk_ranking (chunk_top_k * 2) none) hshort]
  · simp only [hshort, if_false]
    have : chunk_top_k - walk.length = 0 := by omega
    rw [this]
    simp

theorem diversity_walk_length_le (max_per_doc chunk_top_k : Nat) :
    ∀ (l acc : List ChunkResult), acc.length < chunk_top_k →
      (diversity_walk max_per_doc chunk_top_k l acc).length ≤ chunk_top_k := by
  intro l
  induction l with
  | nil => intro acc hlt; exact Nat.le_of_lt hlt
  | cons c rest ih =>
    intro acc hlt
    unfold diversity_walk
    dsimp only
    by_cases haccept : (decide (acc.countP
        (fun x => x.chunk.document_index == c.chunk.document_index) < max_per_doc) ||
        decide (acc.length < chunk_top_k / 2)) = true
    · rw [haccept]
      simp only [if_true]
      by_cases hbreak : chunk_top_k ≤ (acc ++ [c]).length
      · rw [if_pos hbreak]
        simp only [List.length_append, List.length_cons, List.length_nil] at *
        omega
      · rw [if_neg hbreak]
        apply ih
        simp only [List.length_append, List.length_cons, List.length_nil] at *
        omega
    · rw [Bool.not_eq_true] at haccept
      rw [haccept]
      simp only [Bool.false_eq_true, if_false]
      exact ih acc hlt

/-- C3: for every store with a non-empty document collection, the chunk list
of `hybrid_search` is exactly the spec-described diversity selection over the
ranked over-fetched chunk candidates: walk the candidates in relevance order,
accept one exactly when its source document's running count is below
`maxPerDoc = max(2, chunkK / documentCount)` or fewer than `chunkK / 2`
chunks were accepted so far, stop once `chunkK` are accepted; then, if fewer
than `chunkK` were accepted, backfill from the remaining candidates in order,
ignoring the per-document cap, until `chunkK` is reached or candidates are
exhausted. -/
theorem claim_C3_diversity_balancing (s : StoreState) (query : String)
    (doc_ranking chunk_ranking : List Nat) (doc_top_k chunk_top_k : Nat)
    (hmeta : s.document_metadata ≠ []) :
    (hybrid_search s query doc_ranking chunk_ranking doc_top_k chunk_top_k).relevant_chunks =
      diversity_spec (search_chunks s query chunk_ranking (chunk_top_k * 2) none)
        chunk_top_k (max 2 (chunk_top_k / s.document_metadata.length)) :=
  hybrid_chunks_characterisation s query doc_ranking chunk_ranking doc_top_k
    chunk_top_k hmeta

theorem claim_C3_witness :
    two_doc_store.document_metadata ≠ [] ∧
    (hybrid_search two_doc_store "q" [0, 1] [0, 1, 2, 3] 3 3).relevant_chunks =
      diversity_spec (search_chunks two_doc_store "q" [0, 1, 2, 3] (3 * 2) none)
        3 (max 2 (3 / two_doc_store.document_metadata.length)) :=
  ⟨by decide,
    claim_C3_diversity_balancing two_doc_store "q" [0, 1] [0, 1, 2, 3] 3 3 (by decide)⟩

theorem hybrid_relevant_documents_eq (s : StoreState) (query : String)
    (doc_ranking chunk_ranking : List Nat) (doc_top_k chunk_top_k : Nat) :
    (hybrid_search s query doc_ranking chunk_ranking doc_top_k chunk_top_k).relevant_documents =
      search_documents s query doc_ranking doc_top_k := rfl

theorem filter_not_mem_length (l acc : List ChunkResult) (h : l.Nodup) :
    l.length ≤ (l.filter (fun c => c ∉ acc)).length + acc.length := by
  have hsplit : l.length = (l.filter (fun c => decide (c ∉ acc))).length +
      (l.filter (fun c => !decide (c ∉ acc))).length :=
    List.length_eq_length_filter_add _
  have hmem_le : (l.filter (fun c => !decide (c ∉ acc))).length ≤ acc.length := by
    have hnd : (l.filter (fun c => !decide (c ∉ acc))).Nodup := h.filter _
    have hsubset : ∀ x ∈ l.filter (fun c => !decide (c ∉ acc)), x ∈ acc := by
      intro x hx
      have := List.of_mem_filter hx
      simpa using this
    calc (l.filter (fun c => !decide (c ∉ acc))).length
        = (l.filter (fun c => !decide (c ∉ acc))).toFinset.card :=
          (List.toFinset_card_of_nodup hnd).symm
      _ ≤ acc.toFinset.card := by
          apply Finset.card_le_card
          intro x hx
          rw [List.mem_toFinset] at *
          exact hsubset x (by simpa using hx)
      _ ≤ acc.length := List.toFinset_card_le acc
  omega

theorem search_chunks_loop_length (s : StoreState) (k : Nat) :
    ∀ (l : List Nat) (count : Nat),
      (∀ idx ∈ l, idx < s.chunk_metadata.length) → count < k →
      (search_chunks_loop s none k l count).length = min (k - count) l.length := by
  intro l
  induction l with
  | nil => intro count _ _; simp [search_chunks_loop]
  | cons idx rest ih =>
    intro count hmem hcount
    have hidx : idx < s.chunk_metadata.length := hmem idx (List.mem_cons_self idx rest)
    unfold search_chunks_loop
    rw [if_pos hidx]
    dsimp only
    have hskip : chunk_filter_skip none (s.chunk_metadata.getD idx default) = false := rfl
    rw [hskip]
    simp only [Bool.false_eq_true, if_false]
    by_cases hbreak : k ≤ count + 1
    · rw [if_pos hbreak]
      simp only [List.length_cons, List.length_nil]
      omega
    · rw [if_neg hbreak]
      simp only [List.length_cons]
      rw [ih (count + 1) (fun x hx => hmem x (List.mem_cons_of_mem idx hx)) (by omega)]
      omega

theorem search_chunks_length (s : StoreState) (query : String) (ranking : List Nat)
    (top_k : Nat) (ce : List (List Int))
    (hch : s.chunk_index = some ce) (hcl : ce.length = s.chunk_metadata.length)
    (hperm : ranking.Perm (List.range ce.length)) :
    (search_chunks s query ranking top_k none).length =
      min top_k (min (top_k * 2) s.chunk_metadata.length) := by
  unfold search_chunks
  rw [hch]
  by_cases ht : top_k = 0
  · subst ht
    simp [search_chunks_loop]
  · rw [search_chunks_loop_length s top_k (ranking.take (top_k * 2)) 0 ?_ (by omega)]
    · rw [List.length_take]
      have hrl : ranking.length = s.chunk_metadata.length := by
        rw [hperm.length_eq, List.length_range, hcl]
      rw [hrl]
      omega
    · intro idx hin
      have : idx ∈ ranking := List.mem_of_mem_take hin
      have : idx ∈ List.range ce.length := hperm.mem_iff.mp this
      rw [List.mem_range] at this
      omega

theorem enum_filterMap_length (m : Nat) (g : Nat × Nat → DocResult) :
    ∀ (l : List Nat) (i : Nat), (∀ x ∈ l, x < m) →
      ((List.enumFrom i l).filterMap
        (fun p => if p.2 < m then some (g p) else none)).length = l.length := by
  intro l
  induction l with
  | nil => intro i _; rfl
  | cons x xs ih =>
    intro i hmem
    have hx : x < m := hmem x (List.mem_cons_self x xs)
    show (List.filterMap _ ((i, x) :: List.enumFrom (i + 1) xs)).length = _
    rw [List.filterMap_cons]
    simp only [hx, if_true]
    simp only [List.length_cons]
    rw [ih (i + 1) (fun y hy => hmem y (List.mem_cons_of_mem x hy))]

theorem search_documents_length (s : StoreState) (query : String)
    (ranking : List Nat) (top_k : Nat) (de : List (List Int))
    (hdoc : s.document_index = some de)
    (hdl : de.length = s.document_metadata.length)
    (hperm : ranking.Perm (List.range de.length)) :
    (search_documents s query ranking top_k).length =
      min top_k s.document_metadata.length := by
  unfold search_documents
  rw [hdoc]
  show ((List.enumFrom 0 (ranking.take top_k)).filterMap _).length = _
  rw [enum_filterMap_length s.document_metadata.length
    (fun p => { rank := p.1 + 1, document := s.document_metadata.getD p.2 default })
    (ranking.take top_k) 0 ?_]
  · rw [List.length_take]
    have hrl : ranking.length = s.document_metadata.length := by
      rw [hperm.length_eq, List.length_range, hdl]
    rw [hrl]
  · intro x hx
    have : x ∈ ranking := List.mem_of_mem_take hx
    have : x ∈ List.range de.length := hperm.mem_iff.mp this
    rw [List.mem_range] at this
    omega

/-- C2: for every query (i.e. every distance ranking the opaque embedding can
induce) and every built index (both indices present, one vector per metadata
record, a non-empty collection), `hybrid_search(q, docK, chunkK)` returns at
most `chunkK` chunks and at most `docK` documents, and returns fewer than the
requested number only when the collection itself contains fewer total chunks
(respectively documents) than requested. -/
theorem claim_C2_hybrid_result_bounds (s : StoreState) (query : String)
    (doc_ranking chunk_ranking : List Nat) (doc_top_k chunk_top_k : Nat)
    (de ce : List (List Int))
    (hdoc : s.document_index = some de)
    (hdl : de.length = s.document_metadata.length)
    (hch : s.chunk_index = some ce)
    (hcl : ce.length = s.chunk_metadata.length)
    (hdperm : doc_ranking.Perm (List.range de.length))
    (hcperm : chunk_ranking.Perm (List.range ce.length))
    (hmeta : s.document_metadata ≠ []) :
    (hybrid_search s query doc_ranking chunk_ranking doc_top_k chunk_top_k).relevant_documents.length ≤ doc_top_k ∧
    (hybrid_search s query doc_ranking chunk_ranking doc_top_k chunk_top_k).relevant_chunks.length ≤ chunk_top_k ∧
    ((hybrid_search s query doc_ranking chunk_ranking doc_top_k chunk_top_k).relevant_documents.length < doc_top_k →
      s.document_metadata.length < doc_top_k) ∧
    ((hybrid_search s query doc_ranking chunk_ranking doc_top_k chunk_top_k).relevant_chunks.length < chunk_top_k →
      s.chunk_metadata.length < chunk_top_k) := by
  have hdocs : (hybrid_search s query doc_ranking chunk_ranking doc_top_k chunk_top_k).relevant_documents.length
      = min doc_top_k s.document_metadata.length := by
    rw [hybrid_relevant_documents_eq]
    exact search_documents_length s query doc_ranking doc_top_k de hdoc hdl hdperm
  have hchar := hybrid_chunks_characterisation s query doc_ranking chunk_ranking
    doc_top_k chunk_top_k hmeta
  set all := search_chunks s query chunk_ranking (chunk_top_k * 2) none with hall_def
  have hall : all.length =
      min (chunk_top_k * 2) (min (chunk_top_k * 2 * 2) s.chunk_metadata.length) :=
    search_chunks_length s query chunk_ranking (chunk_top_k * 2) ce hch hcl hcperm
  set mpd := max 2 (chunk_top_k / s.document_metadata.length) with hmpd
  set walk := diversity_walk mpd chunk_top_k all [] with hwalk_def
  have hnodup : all.Nodup := search_chunks_nodup s query chunk_ranking (chunk_top_k * 2) none
  have hwalk_le : walk.length ≤ chunk_top_k := by
    by_cases hck : chunk_top_k = 0
    · subst hck
      have hlen0 : all.length = 0 := by omega
      have hnil : all = [] := List.length_eq_zero.mp hlen0
      rw [hwalk_def, hnil]
      simp [diversity_walk]
    · exact diversity_walk_length_le mpd chunk_top_k all []
        (by simp only [List.length_nil]; omega)
  have hchunks : (hybrid_search s query doc_ranking chunk_ranking doc_top_k chunk_top_k).relevant_chunks.length =
      walk.length + min (chunk_top_k - walk.length)
        ((all.filter (fun c => c ∉ walk)).length) := by
    rw [hchar]
    unfold diversity_spec
    dsimp only
    rw [← hwalk_def]
    rw [List.length_append, List.length_take]
  have hfl := filter_not_mem_length all walk hnodup
  refine ⟨by omega, by omega, by omega, by omega⟩

theorem claim_C2_witness :
    two_doc_store.document_index = some [[0], [1]] ∧
    ([2, 0, 3, 1] : List Nat).Perm (List.range ([[0], [1], [2], [3]] : List (List Int)).length) ∧
    ((hybrid_search two_doc_store "q" [0, 1] [2, 0, 3, 1] 3 1).relevant_documents.length ≤ 3 ∧
      (hybrid_search two_doc_store "q" [0, 1] [2, 0, 3, 1] 3 1).relevant_chunks.length ≤ 1 ∧
      ((hybrid_search two_doc_store "q" [0, 1] [2, 0, 3, 1] 3 1).relevant_documents.length < 3 →
        two_doc_store.document_metadata.length < 3) ∧
      ((hybrid_search two_doc_store "q" [0, 1] [2, 0, 3, 1] 3 1).relevant_chunks.length < 1 →
        two_doc_store.chunk_metadata.length < 1)) :=
  ⟨rfl, by decide,
    claim_C2_hybrid_result_bounds two_doc_store "q" [0, 1] [2, 0, 3, 1] 3 1
      [[0], [1]] [[0], [1], [2], [3]] rfl rfl rfl rfl (by decide) (by decide) (by decide)⟩

end RAGApp
